import Mathlib

/-!
Shallow embedding of the `dev-events` persistence layer:
the Event model's save-time normalization pipeline (slug derivation,
date normalization, time normalization), the Booking model's save-time
validation (email shape, referenced-event existence, uniqueness of
`(eventId, email)`), and the cached database-connection helper.

Strings are modelled as Lean `String` / `List Char`.  JavaScript's
`toLowerCase` is modelled per character on ASCII (the inputs the models
exercise are ASCII; on ASCII the two agree).  JavaScript's `\s` class and
`String.prototype.trim` are modelled by `isJsSpace` over the common
whitespace code points.
-/

namespace DevEvents

/-- ASCII lowercasing of a single character, modelling the effect of
JavaScript `toLowerCase` on ASCII characters. -/
def toLowerAscii (c : Char) : Char :=
  if 65 ≤ c.toNat ∧ c.toNat ≤ 90 then Char.ofNat (c.toNat + 32) else c

/-- Membership in JavaScript's `\s` character class (the code points the
models exercise: TAB, LF, VT, FF, CR, SPACE, NBSP). -/
def isJsSpace (c : Char) : Bool :=
  c.toNat = 9 ∨ c.toNat = 10 ∨ c.toNat = 11 ∨ c.toNat = 12 ∨
  c.toNat = 13 ∨ c.toNat = 32 ∨ c.toNat = 160

/-- The regex class `\d`: ASCII decimal digits, by code point. -/
def isDigitc (c : Char) : Bool :=
  48 ≤ c.toNat ∧ c.toNat ≤ 57

/-- JavaScript `String.prototype.trim`: drop leading and trailing
whitespace. -/
def jsTrim (l : List Char) : List Char :=
  ((l.dropWhile isJsSpace).reverse.dropWhile isJsSpace).reverse

/-- Characters kept by the slug filter `replace(/[^a-z0-9\s-]/g, "")`:
lowercase ASCII letters, ASCII digits, whitespace, hyphen. -/
def slugKeep (c : Char) : Bool :=
  (97 ≤ c.toNat ∧ c.toNat ≤ 122) ∨ isDigitc c ∨ isJsSpace c ∨ c = '-'

/-- `replace(/\s+/g, "-")`: replace every maximal run of whitespace with a
single hyphen.  One-character lookahead keeps the recursion structural: a
whitespace character emits the run's single hyphen exactly when it is the
run's last character. -/
def replaceWsRuns : List Char → List Char
  | [] => []
  | [c] => if isJsSpace c then ['-'] else [c]
  | c :: d :: rest =>
    if isJsSpace c then
      if isJsSpace d then replaceWsRuns (d :: rest)
      else '-' :: replaceWsRuns (d :: rest)
    else c :: replaceWsRuns (d :: rest)

/-- Slug derivation from the `eventSchema.pre("save")` hook:
`title.toLowerCase().replace(/[^a-z0-9\s-]/g, "").trim().replace(/\s+/g, "-")`. -/
def slugify (title : String) : String :=
  String.mk (replaceWsRuns (jsTrim ((title.data.map toLowerAscii).filter slugKeep)))

/-- State-machine formulation of "replace every run of whitespace with a
single hyphen", written from the spec's words: walk the characters keeping
a flag recording whether the previous character was whitespace; emit a
single hyphen at the first character of each whitespace run. -/
def collapseWsSM (prevWasSpace : Bool) : List Char → List Char
  | [] => []
  | c :: rest =>
    if isJsSpace c then
      if prevWasSpace then collapseWsSM true rest
      else '-' :: collapseWsSM true rest
    else c :: collapseWsSM false rest

/-- The slug algorithm as the spec states it: lowercase the title; remove
every character not in `[a-z0-9, whitespace, hyphen]`; trim
leading/trailing whitespace; replace every run of whitespace with a
single hyphen (state-machine formulation). -/
def slugSpec (title : String) : String :=
  String.mk (collapseWsSM false (jsTrim ((title.data.map toLowerAscii).filter slugKeep)))

/-- A character allowed in a finished slug: lowercase letter, digit or
hyphen. -/
def slugOutChar (c : Char) : Bool :=
  (97 ≤ c.toNat ∧ c.toNat ≤ 122) ∨ isDigitc c ∨ c = '-'

/-! ## Time normalization

Embedding of the time branch of `eventSchema.pre("save")`:
match against `/^(\d{1,2}):(\d{2})(?::\d{2})?(?:\s*(AM|PM))?$/i`, convert a
present meridiem to 24-hour, range-check, and rewrite as zero-padded
`HH:MM`.  The regex is deterministic on its accepted strings (no class
contains `:`), so it is embedded as a straight-line parser. -/

/-- Numeric value of a decimal digit character (undefined garbage off
digits, used only under `isDigit` guards), modelling `parseInt` digit by
digit. -/
def digitVal (c : Char) : Nat := c.toNat - 48

/-- `parseInt(s, 10)` on a string of decimal digits. -/
def natOfDigits (l : List Char) : Nat :=
  l.foldl (fun a c => a * 10 + digitVal c) 0

/-- The optional seconds group `(?::\d{2})?` anchored before the meridiem
part: consume `:SS` when present, fail when `:` is present but not
followed by exactly the two digits, pass the input through otherwise. -/
def parseSeconds : List Char → Option (List Char)
  | ':' :: r =>
    if (r.take 2).length = 2 ∧ (r.take 2).all isDigitc then some (r.drop 2)
    else none
  | r => some r

/-- The optional meridiem group `(?:\s*(AM|PM))?$` (case-insensitive):
returns `none` on no match, `some none` for no meridiem, `some (some b)`
with `b = true` for PM and `b = false` for AM. -/
def parseMeridiem (r : List Char) : Option (Option Bool) :=
  if r = [] then some none
  else
    match r.dropWhile isJsSpace with
    | [c1, c2] =>
      if (c1 = 'A' ∨ c1 = 'a') ∧ (c2 = 'M' ∨ c2 = 'm') then some (some false)
      else if (c1 = 'P' ∨ c1 = 'p') ∧ (c2 = 'M' ∨ c2 = 'm') then some (some true)
      else none
    | _ => none

/-- Matching a (trimmed) string against
`/^(\d{1,2}):(\d{2})(?::\d{2})?(?:\s*(AM|PM))?$/i`: yields the numeric
hour group, the two minute digit characters (kept verbatim, as the source
keeps `timeMatch[2]` as a string), and the meridiem. -/
def timeMatch (l : List Char) : Option (Nat × List Char × Option Bool) :=
  if 1 ≤ (l.takeWhile isDigitc).length ∧ (l.takeWhile isDigitc).length ≤ 2 ∧
      (l.dropWhile isDigitc).head? = some ':' then
    if ((l.dropWhile isDigitc).tail.take 2).length = 2 ∧
        ((l.dropWhile isDigitc).tail.take 2).all isDigitc then
      (parseSeconds ((l.dropWhile isDigitc).tail.drop 2)).bind fun r5 =>
        (parseMeridiem r5).map fun mer =>
          (natOfDigits (l.takeWhile isDigitc), (l.dropWhile isDigitc).tail.take 2, mer)
    else none
  else none

/-- 24-hour conversion of the parsed hour, from the source:
`if (meridiem === "PM" && hours !== 12) hours += 12;`
`if (meridiem === "AM" && hours === 12) hours = 0;`. -/
def convert24 (mer : Option Bool) (h : Nat) : Nat :=
  match mer with
  | some true => if h ≠ 12 then h + 12 else h
  | some false => if h = 12 then 0 else h
  | none => h

/-- `String(n).padStart(2, "0")` for `n ≤ 99`. -/
def pad2 (n : Nat) : List Char :=
  [Nat.digitChar (n / 10 % 10), Nat.digitChar (n % 10)]

/-- The time branch of `eventSchema.pre("save")`: trim, match the pattern,
convert meridiem, range-check, rewrite as zero-padded `HH:MM` (the minute
characters are written back verbatim). -/
def normalizeTime (s : String) : Except String String :=
  match timeMatch (jsTrim s.data) with
  | none =>
    .error ("Invalid time format: \"" ++ s ++ "\". Expected HH:MM or HH:MM AM/PM.")
  | some (h, mins, mer) =>
    let hours := convert24 mer h
    if hours > 23 ∨ natOfDigits mins > 59 then
      .error ("Time out of range: \"" ++ s ++ "\".")
    else
      .ok (String.mk (pad2 hours ++ ':' :: mins))

/-! ## Date normalization

Embedding of the date branch of `eventSchema.pre("save")`:
`new Date(this.date)` followed by `toISOString().split("T")[0]` on
success, i.e. the UTC calendar date held by the parsed `Date`.

`Date` is a JavaScript builtin; it is modelled at the granularity the
source observes (the resulting UTC calendar date):
- ISO `YYYY-MM-DD` strings (zero-padded, valid proleptic-Gregorian date)
  are parsed as UTC midnight, so the held UTC date is the written date;
- `MonthName D, YYYY` strings (full English month name, case-insensitive,
  day 1–31 with day-overflow rolling into the next month, 4-digit year
  ≥ 1 — the format family the spec exercises) are parsed as local
  midnight, so with a process UTC offset `tz` (minutes east of UTC,
  `|tz| < 24h`) the held UTC date is one day earlier exactly when
  `tz > 0`;
- anything else is unparseable (`Invalid Date`). -/

/-- A proleptic-Gregorian calendar date. -/
structure CivilDate where
  y : Nat
  m : Nat
  d : Nat
deriving DecidableEq, Repr

/-- Gregorian leap-year rule. -/
def isLeap (y : Nat) : Bool :=
  y % 4 = 0 ∧ (y % 100 ≠ 0 ∨ y % 400 = 0)

/-- Days in a month of a given year. -/
def daysInMonth (y m : Nat) : Nat :=
  if m = 2 then (if isLeap y then 29 else 28)
  else if m = 4 ∨ m = 6 ∨ m = 9 ∨ m = 11 then 30
  else 31

/-- Well-formedness of a civil date as produced by the date model: valid
month and day, year formattable as four digits. -/
def CivilOK (c : CivilDate) : Prop :=
  1 ≤ c.m ∧ c.m ≤ 12 ∧ 1 ≤ c.d ∧ c.d ≤ daysInMonth c.y c.m ∧ c.y ≤ 9999

/-- ISO `YYYY-MM-DD` parsing (ECMA-262 date-only form, interpreted as
UTC): ten characters, zero-padded fields, month and day in range. -/
def parseISOCivil : List Char → Option CivilDate
  | [a, b, c, d, e, f, g, h, i, j] =>
    if e = '-' ∧ h = '-' ∧ isDigitc a ∧ isDigitc b ∧ isDigitc c ∧ isDigitc d ∧
        isDigitc f ∧ isDigitc g ∧ isDigitc i ∧ isDigitc j then
      if 1 ≤ digitVal f * 10 + digitVal g ∧ digitVal f * 10 + digitVal g ≤ 12 ∧
          1 ≤ digitVal i * 10 + digitVal j ∧
          digitVal i * 10 + digitVal j ≤
            daysInMonth (((digitVal a * 10 + digitVal b) * 10 + digitVal c) * 10 + digitVal d)
              (digitVal f * 10 + digitVal g) then
        some ⟨((digitVal a * 10 + digitVal b) * 10 + digitVal c) * 10 + digitVal d,
          digitVal f * 10 + digitVal g, digitVal i * 10 + digitVal j⟩
      else none
    else none
  | _ => none

/-- Full lowercase English month names with their month numbers. -/
def monthTable : List (List Char × Nat) :=
  [("january".data, 1), ("february".data, 2), ("march".data, 3),
   ("april".data, 4), ("may".data, 5), ("june".data, 6),
   ("july".data, 7), ("august".data, 8), ("september".data, 9),
   ("october".data, 10), ("november".data, 11), ("december".data, 12)]

/-- After the month name: `" D, YYYY"` with a 1–2 digit day and a 4-digit
year; returns `(day, year)`. -/
def parseDayYear : List Char → Option (Nat × Nat)
  | ' ' :: r1 =>
    let dds := r1.takeWhile isDigitc
    if 1 ≤ dds.length ∧ dds.length ≤ 2 then
      match r1.dropWhile isDigitc with
      | ',' :: ' ' :: [y1, y2, y3, y4] =>
        if isDigitc y1 ∧ isDigitc y2 ∧ isDigitc y3 ∧ isDigitc y4 then
          let d := natOfDigits dds
          let y := natOfDigits [y1, y2, y3, y4]
          if 1 ≤ d ∧ d ≤ 31 ∧ 1 ≤ y then some (d, y) else none
        else none
      | _ => none
    else none
  | _ => none

/-- `MonthName D, YYYY` parsing (case-insensitive month name).  The final
range check is redundant — the table only holds months 1–12 and
`parseDayYear` enforces the rest — but keeps the model's invariant
syntactically evident. -/
def parseMonthName (l : List Char) : Option CivilDate :=
  let lo := l.map toLowerAscii
  (monthTable.findSome? fun nm =>
    if lo.take nm.1.length = nm.1 then
      (parseDayYear (lo.drop nm.1.length)).map fun dy => (⟨dy.2, nm.2, dy.1⟩ : CivilDate)
    else none).bind fun c =>
    if 1 ≤ c.m ∧ c.m ≤ 12 ∧ 1 ≤ c.d ∧ c.d ≤ 31 ∧ 1 ≤ c.y ∧ c.y ≤ 9999 then some c
    else none

/-- Roll a day 1–31 that exceeds the month's length into the following
month (the builtin's lenient day handling, e.g. `February 30` becomes
`March 2`). -/
def normOverflow (c : CivilDate) : CivilDate :=
  if c.d > daysInMonth c.y c.m then ⟨c.y, c.m + 1, c.d - daysInMonth c.y c.m⟩
  else c

/-- The previous calendar day. -/
def prevDay (c : CivilDate) : CivilDate :=
  if c.d > 1 then ⟨c.y, c.m, c.d - 1⟩
  else if c.m > 1 then ⟨c.y, c.m - 1, daysInMonth c.y (c.m - 1)⟩
  else ⟨c.y - 1, 12, 31⟩

/-- The UTC calendar date held by `new Date(s)` (see section comment),
with `tz` the process's UTC offset in minutes (east positive). -/
def jsParseCivilDate (tz : Int) (s : String) : Option CivilDate :=
  match parseISOCivil s.data with
  | some c => some c
  | none =>
    (parseMonthName s.data).map fun c =>
      if 0 < tz then prevDay (normOverflow c) else normOverflow c

/-- Zero-padded 4-digit year, `String(y).padStart`-style, for `y ≤ 9999`. -/
def pad4 (y : Nat) : List Char :=
  [Nat.digitChar (y / 1000 % 10), Nat.digitChar (y / 100 % 10),
   Nat.digitChar (y / 10 % 10), Nat.digitChar (y % 10)]

/-- `toISOString().split("T")[0]`: the UTC calendar date as `YYYY-MM-DD`. -/
def formatISODate (c : CivilDate) : String :=
  String.mk (pad4 c.y ++ '-' :: pad2 c.m ++ '-' :: pad2 c.d)

/-- The date branch of `eventSchema.pre("save")`: parse with the builtin,
fail on `Invalid Date`, otherwise rewrite as the UTC `YYYY-MM-DD`. -/
def normalizeDate (tz : Int) (s : String) : Except String String :=
  match jsParseCivilDate tz s with
  | none => .error ("Invalid date value: \"" ++ s ++ "\"")
  | some c => .ok (formatISODate c)

/-! ## Event save pipeline -/

/-- The fields of an Event document touched or read by the save pipeline
(`createdAt` / `updatedAt` are managed by the storage layer's
`timestamps: true` option, outside the hook). -/
structure EventDoc where
  title : String
  slug : String
  description : String
  overview : String
  image : String
  venue : String
  location : String
  date : String
  time : String
  mode : String
  audience : String
  agenda : List String
  organizer : String
  tags : List String
deriving DecidableEq, Repr

/-- The whole `eventSchema.pre("save")` hook: slug derivation (only when
the document is new or its title modified), then date normalization, then
time normalization, aborting at the first failure.  `isNew` and
`titleModified` model the document's `isNew` / `isModified("title")`
flags; `tz` is the process UTC offset used by the date builtin. -/
def eventPreSave (tz : Int) (doc : EventDoc) (isNew titleModified : Bool) :
    Except String EventDoc :=
  let slug' := if isNew || titleModified then slugify doc.title else doc.slug
  match normalizeDate tz doc.date with
  | .error e => .error e
  | .ok date' =>
    match normalizeTime doc.time with
    | .error e => .error e
    | .ok time' => .ok { doc with slug := slug', date := date', time := time' }

/-! ## Booking models

Two Booking schema variants exist in the source: the one in
`booking.model.ts` (simple email regex, unconditional existence check, no
unique index) and the one in the unnamed file (RFC-style email regex,
existence check guarded by `isModified('eventId') || isNew`, unique
compound index on `(eventId, email)` — the variant the spec adopts as the
intended design).  Both are embedded.  Event ids are `Nat`; a store holds
the persisted Event ids and the persisted `(eventId, email)` pairs. -/

/-- The `trim` + `lowercase` setters on the `email` field. -/
def normalizeEmail (s : String) : String :=
  String.mk ((jsTrim s.data).map toLowerAscii)

/-- `booking.model.ts` email validator `/^[^\s@]+@[^\s@]+\.[^\s@]+$/`:
exactly one `@`, nonempty local part, no whitespace, and a dot in the
domain with nonempty characters on both sides. -/
def emailOkBasic (s : String) : Bool :=
  let l := s.data
  l.count '@' = 1 ∧
  (let i := l.takeWhile (· ≠ '@')
   let d := (l.dropWhile (· ≠ '@')).drop 1
   i ≠ [] ∧ i.all (fun c => !isJsSpace c) ∧ d.all (fun c => !isJsSpace c) ∧
   '.' ∈ (d.drop 1).dropLast)

/-- Character class of the local part in the unnamed variant's RFC-style
regex: alphanumerics and ``.!#$%&'*+/=?^_`{|}~-`` (specials given by code
point). -/
def isLocalChar (c : Char) : Bool :=
  c.isAlphanum ∨ c.toNat ∈ [33, 35, 36, 37, 38, 39, 42, 43, 46, 47, 61, 63,
    94, 95, 96, 123, 124, 125, 126, 45]

/-- A DNS label in the RFC-style regex:
`[a-zA-Z0-9](?:[a-zA-Z0-9-]{0,61}[a-zA-Z0-9])?` — length 1 or 2–63,
alphanumeric ends, alphanumeric-or-hyphen interior. -/
def isLabel (l : List Char) : Bool :=
  match l with
  | [] => false
  | [c] => c.isAlphanum
  | c :: rest =>
    c.isAlphanum ∧ (rest.getLast?.elim false Char.isAlphanum) ∧
    rest.length ≤ 62 ∧ rest.dropLast.all fun x => x.isAlphanum ∨ x = '-'

/-- The unnamed variant's email validator: local part over `isLocalChar`,
one `@`, domain made of dot-separated labels. -/
def emailOkStrict (s : String) : Bool :=
  let l := s.data
  l.count '@' = 1 ∧
  (let i := l.takeWhile (· ≠ '@')
   let d := (l.dropWhile (· ≠ '@')).drop 1
   i ≠ [] ∧ i.all isLocalChar ∧ (d.splitOn '.').all isLabel)

/-- The persisted collections a Booking save interacts with. -/
structure BookingStore where
  events : List Nat
  bookings : List (Nat × String)
deriving DecidableEq, Repr

/-- The unnamed variant's `BookingSchema.pre('save')` hook: when
`eventId` is modified or the document is new, look the event up and fail
if absent; otherwise skip the lookup.  The second component records the
event ids the hook looked up against the Event collection. -/
def bookingPreSaveStrict (isNew modifiedEventId : Bool) (events : List Nat)
    (eid : Nat) : Except String Unit × List Nat :=
  if modifiedEventId || isNew then
    if eid ∈ events then (.ok (), [eid])
    else (.error ("ValidationError: Event with ID " ++ toString eid ++ " does not exist"), [eid])
  else (.ok (), [])

/-- Creation of a Booking under the `booking.model.ts` variant: email
setters, field validation, the unconditional existence hook, then the
write (no uniqueness constraint in this variant).  An `error` result
means the write was aborted and the store is unchanged. -/
def saveBookingBasic (st : BookingStore) (eid : Nat) (emailRaw : String) :
    Except String BookingStore :=
  if emailOkBasic (normalizeEmail emailRaw) = false then
    .error ("\"" ++ normalizeEmail emailRaw ++ "\" is not a valid email address.")
  else if eid ∈ st.events then
    .ok { st with bookings := st.bookings ++ [(eid, normalizeEmail emailRaw)] }
  else
    .error ("Referenced event with id \"" ++ toString eid ++ "\" does not exist.")

/-- Creation of a Booking under the unnamed (spec-adopted) variant: email
setters, field validation, the guarded existence hook, then the insert
guarded by the unique compound index `uniq_event_email` on
`(eventId, email)`. -/
def saveBookingStrict (st : BookingStore) (eid : Nat) (emailRaw : String)
    (isNew modifiedEventId : Bool) : Except String BookingStore :=
  if emailOkStrict (normalizeEmail emailRaw) = false then
    .error "ValidationError: Please provide a valid email address"
  else
    match (bookingPreSaveStrict isNew modifiedEventId st.events eid).1 with
    | .error e => .error e
    | .ok _ =>
      if (eid, normalizeEmail emailRaw) ∈ st.bookings then
        .error "ConstraintViolation: duplicate (eventId, email)"
      else
        .ok { st with bookings := (eid, normalizeEmail emailRaw) :: st.bookings }

/-! ## Connection manager

Embedding of `connectToDatabase` from the unnamed file.  The module-level
cache `{ conn, promise }` is the state; attempts are numbered, and the
`outcomes` oracle gives each underlying `mongoose.connect` attempt's
result (`some handle` for fulfilment, `none` for rejection).  `promise`
caches the attempt id of the in-flight/settled attempt; awaiting a cached
attempt re-observes that attempt's fixed outcome. -/

structure ConnState where
  conn : Option Nat
  promise : Option Nat
  nextAttempt : Nat
deriving DecidableEq, Repr

/-- One call to `connectToDatabase()`: return the cached handle if
present; otherwise reuse the cached attempt or start a fresh one; await
it, caching the handle on success.  On rejection the error propagates and
— as in the source — `promise` is *not* cleared. -/
def connectToDatabase (outcomes : Nat → Option Nat) (st : ConnState) :
    Except String Nat × ConnState :=
  match st.conn with
  | some c => (.ok c, st)
  | none =>
    let pid := st.promise.getD st.nextAttempt
    let next := if st.promise.isSome then st.nextAttempt else st.nextAttempt + 1
    match outcomes pid with
    | some h => (.ok h, { conn := some h, promise := some pid, nextAttempt := next })
    | none => (.error "ConnectionError", { conn := none, promise := some pid, nextAttempt := next })

/-! ## Sample documents used by witnesses -/

/-- An Event document as handed to `save()` before normalization. -/
def sampleEventRaw : EventDoc :=
  ⟨"Hello, World!  2024", "", "d", "o", "img", "v", "loc", "March 5, 2025",
   "2:30 PM", "online", "devs", ["a"], "org", ["t"]⟩

/-- The same Event document after a successful save under a UTC process
timezone. -/
def sampleEventSaved : EventDoc :=
  ⟨"Hello, World!  2024", "hello-world-2024", "d", "o", "img", "v", "loc",
   "2025-03-05", "14:30", "online", "devs", ["a"], "org", ["t"]⟩

/-- The attempt oracle for the C7 run: the first underlying connection
attempt rejects, any later attempt would fulfil with handle 7. -/
def failThenOk : Nat → Option Nat :=
  fun n => if n = 0 then none else some 7

/-! ## Theorems -/



theorem replaceWsRuns_cons_nonspace {c : Char} (hc : isJsSpace c = false)
    (r : List Char) : replaceWsRuns (c :: r) = c :: replaceWsRuns r := by
  cases r with
  | nil => simp [replaceWsRuns, hc]
  | cons d rest => simp [replaceWsRuns, hc]

theorem replaceWsRuns_cons_space {c : Char} (hc : isJsSpace c = true) :
    ∀ r : List Char,
      replaceWsRuns (c :: r) = '-' :: replaceWsRuns (r.dropWhile isJsSpace) := by
  intro r
  induction r generalizing c with
  | nil => simp [replaceWsRuns, hc]
  | cons d rest ih =>
    cases hd : isJsSpace d with
    | true =>
      simp only [replaceWsRuns, hc, hd, if_true, List.dropWhile_cons, ih hd]
    | false =>
      simp [replaceWsRuns, hc, hd, List.dropWhile_cons]

theorem collapseWsSM_eq_replaceWsRuns (l : List Char) :
    collapseWsSM true l = replaceWsRuns (l.dropWhile isJsSpace) ∧
    collapseWsSM false l = replaceWsRuns l := by
  induction l with
  | nil => exact ⟨rfl, rfl⟩
  | cons c rest ih =>
    cases hc : isJsSpace c with
    | true =>
      refine ⟨?_, ?_⟩
      · simp [collapseWsSM, List.dropWhile_cons, hc, ih.1]
      · simp [collapseWsSM, replaceWsRuns_cons_space hc, hc, ih.1]
    | false =>
      refine ⟨?_, ?_⟩
      · simp [collapseWsSM, replaceWsRuns_cons_nonspace hc, List.dropWhile_cons, hc, ih.2]
      · simp [collapseWsSM, replaceWsRuns_cons_nonspace hc, hc, ih.2]

theorem slugify_eq_slugSpec (t : String) : slugify t = slugSpec t := by
  unfold slugify slugSpec
  rw [(collapseWsSM_eq_replaceWsRuns _).2]

theorem mem_replaceWsRuns_bounded {c : Char} :
    ∀ (n : Nat) (l : List Char), l.length ≤ n → c ∈ replaceWsRuns l →
      c = '-' ∨ (c ∈ l ∧ isJsSpace c = false) := by
  intro n
  induction n with
  | zero =>
    intro l hl h
    rw [List.length_eq_zero.mp (Nat.le_zero.mp hl)] at h
    simp [replaceWsRuns] at h
  | succ n ih =>
    intro l hl h
    cases l with
    | nil => simp [replaceWsRuns] at h
    | cons d rest =>
      have hrest : rest.length ≤ n := Nat.le_of_succ_le_succ hl
      cases hd : isJsSpace d with
      | true =>
        rw [replaceWsRuns_cons_space hd] at h
        rcases List.mem_cons.mp h with h1 | h1
        · exact Or.inl h1
        · have hlen : (rest.dropWhile isJsSpace).length ≤ n :=
            Nat.le_trans (List.dropWhile_sublist _).length_le hrest
          rcases ih _ hlen h1 with h2 | h2
          · exact Or.inl h2
          · exact Or.inr
              ⟨List.mem_cons_of_mem _ ((List.dropWhile_sublist _).mem h2.1), h2.2⟩
      | false =>
        rw [replaceWsRuns_cons_nonspace hd] at h
        rcases List.mem_cons.mp h with h1 | h1
        · subst h1
          exact Or.inr ⟨List.mem_cons_self _ _, hd⟩
        · rcases ih _ hrest h1 with h2 | h2
          · exact Or.inl h2
          · exact Or.inr ⟨List.mem_cons_of_mem _ h2.1, h2.2⟩

theorem mem_replaceWsRuns {c : Char} (l : List Char) (h : c ∈ replaceWsRuns l) :
    c = '-' ∨ (c ∈ l ∧ isJsSpace c = false) :=
  mem_replaceWsRuns_bounded l.length l (Nat.le_refl _) h

theorem mem_jsTrim {c : Char} {l : List Char} (h : c ∈ jsTrim l) : c ∈ l := by
  unfold jsTrim at h
  rw [List.mem_reverse] at h
  have h1 := (List.dropWhile_sublist isJsSpace).mem h
  rw [List.mem_reverse] at h1
  exact (List.dropWhile_sublist isJsSpace).mem h1

/-- Every character of a derived slug is a lowercase ASCII letter, an ASCII
digit, or a hyphen. -/
theorem slugify_chars (t : String) : (slugify t).data.all slugOutChar = true := by
  rw [List.all_eq_true]
  intro c hc
  have hmem : c ∈ replaceWsRuns (jsTrim ((t.data.map toLowerAscii).filter slugKeep)) := hc
  rcases mem_replaceWsRuns _ hmem with h | ⟨h1, h2⟩
  · simp [slugOutChar, h]
  · have h3 := mem_jsTrim h1
    have h4 := (List.mem_filter.mp h3).2
    simp only [slugKeep, decide_eq_true_eq, Bool.or_eq_true, decide_eq_true_iff] at h4
    simp only [slugOutChar, Bool.or_eq_true, decide_eq_true_iff]
    rcases h4 with h5 | h5 | h5 | h5
    · exact Or.inl h5
    · exact Or.inr (Or.inl h5)
    · rw [h5] at h2; cases h2
    · exact Or.inr (Or.inr h5)

/-! ## Helper lemmas on digits, padding, trimming and the time parser -/

theorem isDigitc_digitChar {k : Nat} (h : k < 10) :
    isDigitc (Nat.digitChar k) = true := by
  interval_cases k <;> decide

theorem digitVal_digitChar {k : Nat} (h : k < 10) :
    digitVal (Nat.digitChar k) = k := by
  interval_cases k <;> decide

theorem digitVal_le_of_isDigitc {c : Char} (h : isDigitc c = true) :
    digitVal c ≤ 9 := by
  simp only [isDigitc, Bool.and_eq_true, decide_eq_true_eq] at h
  · simp only [digitVal]; omega

theorem not_isJsSpace_of_isDigitc {c : Char} (h : isDigitc c = true) :
    isJsSpace c = false := by
  simp only [isDigitc, decide_eq_true_eq] at h
  simp only [isJsSpace, decide_eq_false_iff_not]
  omega

theorem natOfDigits_pad2 {n : Nat} (h : n ≤ 99) : natOfDigits (pad2 n) = n := by
  have h1 : n / 10 % 10 < 10 := Nat.mod_lt _ (by omega)
  have h2 : n % 10 < 10 := Nat.mod_lt _ (by omega)
  simp only [pad2, natOfDigits, List.foldl, digitVal_digitChar h1, digitVal_digitChar h2]
  omega

theorem dropWhile_eq_self_of_no_space {l : List Char}
    (h : ∀ c ∈ l, isJsSpace c = false) : l.dropWhile isJsSpace = l := by
  cases l with
  | nil => rfl
  | cons c r =>
    rw [List.dropWhile_cons, if_neg]
    rw [h c (List.mem_cons_self _ _)]
    simp

theorem jsTrim_of_no_space {l : List Char}
    (h : ∀ c ∈ l, isJsSpace c = false) : jsTrim l = l := by
  unfold jsTrim
  rw [dropWhile_eq_self_of_no_space h,
    dropWhile_eq_self_of_no_space (fun c hc => h c (List.mem_reverse.mp hc)),
    List.reverse_reverse]

theorem timeMatch_canonical {h : Nat} {m1 m2 : Char} (hh : h ≤ 99)
    (hm1 : isDigitc m1 = true) (hm2 : isDigitc m2 = true) :
    timeMatch (pad2 h ++ ':' :: [m1, m2]) = some (h, [m1, m2], none) := by
  have h1 : h / 10 % 10 < 10 := Nat.mod_lt _ (by omega)
  have h2 : h % 10 < 10 := Nat.mod_lt _ (by omega)
  have hcolon : isDigitc ':' = false := by decide
  simp only [pad2, List.cons_append, List.nil_append]
  unfold timeMatch
  simp only [List.takeWhile, List.dropWhile, isDigitc_digitChar h1,
    isDigitc_digitChar h2, hcolon, cond_true, cond_false]
  simp only [List.length_cons, List.length_nil, List.head?_cons, List.tail_cons,
    List.take, List.drop, List.all_cons, List.all_nil, hm1, hm2,
    parseSeconds, parseMeridiem, Option.some_bind, Option.map_some]
  rw [if_pos (by simp), if_pos (by simp [hm1, hm2])]
  simp only [natOfDigits, List.foldl, digitVal_digitChar h1, digitVal_digitChar h2]
  have h3 : h / 10 % 10 * 10 + h % 10 = h := by omega
  simp [h3]

theorem timeMatch_mins {l mins : List Char} {h : Nat} {mer : Option Bool}
    (hm : timeMatch l = some (h, mins, mer)) :
    ∃ m1 m2, mins = [m1, m2] ∧ isDigitc m1 = true ∧ isDigitc m2 = true := by
  unfold timeMatch at hm
  split at hm
  · split at hm
    · next hcond =>
      obtain ⟨hlen, hdig⟩ := hcond
      obtain ⟨m1, m2, h12⟩ := List.length_eq_two.mp hlen
      rw [h12] at hdig
      simp only [List.all_cons, List.all_nil, Bool.and_eq_true, and_true] at hdig
      simp only [Option.bind_eq_some, Option.map_eq_some'] at hm
      obtain ⟨r5, -, mer', -, heq⟩ := hm
      have hmins : mins = (l.dropWhile isDigitc).tail.take 2 :=
        (congrArg (fun p => p.2.1) heq).symm
      exact ⟨m1, m2, by rw [hmins, h12], hdig.1, hdig.2⟩
    · cases hm
  · cases hm

theorem normalizeTime_ok {s t : String} (hok : normalizeTime s = .ok t) :
    ∃ h mins mer, timeMatch (jsTrim s.data) = some (h, mins, mer) ∧
      convert24 mer h ≤ 23 ∧ natOfDigits mins ≤ 59 ∧
      t = String.mk (pad2 (convert24 mer h) ++ ':' :: mins) := by
  unfold normalizeTime at hok
  split at hok
  · cases hok
  · next h mins mer hm =>
    dsimp only at hok
    split at hok
    · cases hok
    · next hrange =>
      rw [not_or] at hrange
      exact ⟨h, mins, mer, hm, by omega, by omega, (Except.ok.injEq .. ▸ hok).symm⟩

/-- Time normalization is idempotent on its own successful outputs. -/
theorem normalizeTime_idem {s t : String} (hok : normalizeTime s = .ok t) :
    normalizeTime t = .ok t := by
  obtain ⟨h, mins, mer, hm, hh, hmin, ht⟩ := normalizeTime_ok hok
  obtain ⟨m1, m2, h12, hd1, hd2⟩ := timeMatch_mins hm
  subst h12
  subst ht
  have hns : ∀ c ∈ pad2 (convert24 mer h) ++ ':' :: [m1, m2], isJsSpace c = false := by
    intro c hc
    have hlt1 : convert24 mer h / 10 % 10 < 10 := Nat.mod_lt _ (by omega)
    have hlt2 : convert24 mer h % 10 < 10 := Nat.mod_lt _ (by omega)
    simp only [pad2, List.mem_append, List.mem_cons, List.not_mem_nil, or_false] at hc
    rcases hc with (hc | hc) | hc | hc | hc
    · rw [hc]; exact not_isJsSpace_of_isDigitc (isDigitc_digitChar hlt1)
    · rw [hc]; exact not_isJsSpace_of_isDigitc (isDigitc_digitChar hlt2)
    · rw [hc]; decide
    · rw [hc]; exact not_isJsSpace_of_isDigitc hd1
    · rw [hc]; exact not_isJsSpace_of_isDigitc hd2
  unfold normalizeTime
  have hdata : (String.mk (pad2 (convert24 mer h) ++ ':' :: [m1, m2])).data
      = pad2 (convert24 mer h) ++ ':' :: [m1, m2] := rfl
  rw [hdata, jsTrim_of_no_space hns, timeMatch_canonical (by omega) hd1 hd2]
  have hc24 : convert24 none (convert24 mer h) = convert24 mer h := rfl
  dsimp only
  rw [hc24, if_neg (by omega)]

/-! ## Helper lemmas on the calendar model -/

theorem daysInMonth_bounds (y : Nat) {m : Nat} (_h1 : 1 ≤ m) (_h2 : m ≤ 12) :
    28 ≤ daysInMonth y m ∧ daysInMonth y m ≤ 31 := by
  unfold daysInMonth
  split
  · split <;> omega
  · split <;> omega

theorem daysInMonth_twelve (y : Nat) : daysInMonth y 12 = 31 := by
  unfold daysInMonth
  norm_num

theorem normOverflow_ok {y m d : Nat} (h1 : 1 ≤ m) (h2 : m ≤ 12)
    (h3 : 1 ≤ d) (h4 : d ≤ 31) (h5 : y ≤ 9999) :
    CivilOK (normOverflow ⟨y, m, d⟩) := by
  have hb := daysInMonth_bounds y h1 h2
  unfold normOverflow CivilOK
  dsimp only
  split
  · next hover =>
    have hm12 : m ≠ 12 := by
      intro hm
      rw [hm, daysInMonth_twelve] at hover
      omega
    have hb' := daysInMonth_bounds y (m := m + 1) (by omega) (by omega)
    dsimp only
    refine ⟨by omega, by omega, by omega, by omega, by omega⟩
  · next hover =>
    dsimp only
    exact ⟨h1, h2, h3, by omega, h5⟩

theorem prevDay_ok {c : CivilDate} (h : CivilOK c) : CivilOK (prevDay c) := by
  obtain ⟨y, m, d⟩ := c
  obtain ⟨h1, h2, h3, h4, h5⟩ := h
  simp only at h1 h2 h3 h4 h5
  unfold prevDay CivilOK
  dsimp only
  split
  · next hd =>
    dsimp only
    exact ⟨h1, h2, by omega, by omega, h5⟩
  · split
    · next hd hm =>
      have hb := daysInMonth_bounds y (m := m - 1) (by omega) (by omega)
      dsimp only
      exact ⟨by omega, by omega, by omega, by omega, h5⟩
    · next hd hm =>
      have h12 : daysInMonth (y - 1) 12 = 31 := daysInMonth_twelve _
      dsimp only
      exact ⟨by omega, by omega, by omega, by omega, by omega⟩

theorem parseISOCivil_ok {l : List Char} {c : CivilDate}
    (h : parseISOCivil l = some c) : CivilOK c := by
  unfold parseISOCivil at h
  split at h
  · split at h
    · next hdig =>
      split at h
      · next hrange =>
        obtain ⟨hm1, hm2, hd1, hd2⟩ := hrange
        have ha := digitVal_le_of_isDigitc hdig.2.2.1
        have hb := digitVal_le_of_isDigitc hdig.2.2.2.1
        have hc := digitVal_le_of_isDigitc hdig.2.2.2.2.1
        have hd := digitVal_le_of_isDigitc hdig.2.2.2.2.2.1
        cases h
        exact ⟨hm1, hm2, hd1, hd2, by dsimp only; omega⟩
      · cases h
    · cases h
  · cases h

theorem parseMonthName_bounds {l : List Char} {c : CivilDate}
    (h : parseMonthName l = some c) :
    1 ≤ c.m ∧ c.m ≤ 12 ∧ 1 ≤ c.d ∧ c.d ≤ 31 ∧ 1 ≤ c.y ∧ c.y ≤ 9999 := by
  unfold parseMonthName at h
  rw [Option.bind_eq_some] at h
  obtain ⟨c', -, h2⟩ := h
  split at h2
  · next hb => cases h2; exact hb
  · cases h2

theorem jsParseCivilDate_ok {tz : Int} {s : String} {c : CivilDate}
    (h : jsParseCivilDate tz s = some c) : CivilOK c := by
  unfold jsParseCivilDate at h
  split at h
  · next hiso => cases h; exact parseISOCivil_ok hiso
  · rw [Option.map_eq_some'] at h
    obtain ⟨c', hmn, hc⟩ := h
    obtain ⟨h1, h2, h3, h4, h5, h6⟩ := parseMonthName_bounds hmn
    have hov : CivilOK (normOverflow c') := normOverflow_ok h1 h2 h3 h4 h6
    subst hc
    split
    · exact prevDay_ok hov
    · exact hov

theorem parseISOCivil_format {c : CivilDate} (h : CivilOK c) :
    parseISOCivil (formatISODate c).data = some c := by
  obtain ⟨y, m, d⟩ := c
  obtain ⟨h1, h2, h3, h4, h5⟩ := h
  simp only at h1 h2 h3 h4 h5
  have hy1 : y / 1000 % 10 < 10 := Nat.mod_lt _ (by omega)
  have hy2 : y / 100 % 10 < 10 := Nat.mod_lt _ (by omega)
  have hy3 : y / 10 % 10 < 10 := Nat.mod_lt _ (by omega)
  have hy4 : y % 10 < 10 := Nat.mod_lt _ (by omega)
  have hm1 : m / 10 % 10 < 10 := Nat.mod_lt _ (by omega)
  have hm2 : m % 10 < 10 := Nat.mod_lt _ (by omega)
  have hd1 : d / 10 % 10 < 10 := Nat.mod_lt _ (by omega)
  have hd2 : d % 10 < 10 := Nat.mod_lt _ (by omega)
  have hdata : (formatISODate ⟨y, m, d⟩).data =
      [Nat.digitChar (y / 1000 % 10), Nat.digitChar (y / 100 % 10),
       Nat.digitChar (y / 10 % 10), Nat.digitChar (y % 10), '-',
       Nat.digitChar (m / 10 % 10), Nat.digitChar (m % 10), '-',
       Nat.digitChar (d / 10 % 10), Nat.digitChar (d % 10)] := rfl
  rw [hdata]
  simp only [parseISOCivil]
  simp only [digitVal_digitChar hy1, digitVal_digitChar hy2,
    digitVal_digitChar hy3, digitVal_digitChar hy4, digitVal_digitChar hm1,
    digitVal_digitChar hm2, digitVal_digitChar hd1, digitVal_digitChar hd2]
  have hyv : ((y / 1000 % 10 * 10 + y / 100 % 10) * 10 + y / 10 % 10) * 10 + y % 10 = y := by
    omega
  have hdim := daysInMonth_bounds y h1 h2
  have hmv : m / 10 % 10 * 10 + m % 10 = m := by omega
  have hdv : d / 10 % 10 * 10 + d % 10 = d := by omega
  simp only [hyv, hmv, hdv]
  rw [if_pos, if_pos ⟨h1, h2, h3, h4⟩]
  refine ⟨by trivial, by trivial, ?_, ?_, ?_, ?_, ?_, ?_, ?_, ?_⟩ <;>
    exact isDigitc_digitChar (by omega)

/-- Date normalization is idempotent on its own successful outputs,
whatever process timezone either run uses (canonical `YYYY-MM-DD` strings
are parsed as UTC). -/
theorem normalizeDate_idem {tz tz' : Int} {s d : String}
    (h : normalizeDate tz s = .ok d) : normalizeDate tz' d = .ok d := by
  unfold normalizeDate at h
  split at h
  · cases h
  · next c hc =>
    cases h
    have hok := jsParseCivilDate_ok hc
    unfold normalizeDate jsParseCivilDate
    rw [parseISOCivil_format hok]

/-! ## Slug fixpoint lemmas -/

theorem toLowerAscii_eq_self {c : Char} (h : slugOutChar c = true) :
    toLowerAscii c = c := by
  unfold toLowerAscii
  rw [if_neg]
  simp only [slugOutChar, isDigitc, Bool.or_eq_true, decide_eq_true_eq] at h
  rcases h with h | h | h
  · omega
  · omega
  · rw [h]; decide

theorem slugKeep_of_slugOutChar {c : Char} (h : slugOutChar c = true) :
    slugKeep c = true := by
  simp only [slugOutChar, decide_eq_true_eq] at h
  simp only [slugKeep, decide_eq_true_eq]
  tauto

theorem not_isJsSpace_of_slugOutChar {c : Char} (h : slugOutChar c = true) :
    isJsSpace c = false := by
  simp only [slugOutChar, isDigitc, Bool.or_eq_true, decide_eq_true_eq] at h
  simp only [isJsSpace, decide_eq_false_iff_not]
  rcases h with h | h | h
  · omega
  · omega
  · rw [h]; decide

theorem map_toLowerAscii_eq_self {l : List Char}
    (h : ∀ c ∈ l, slugOutChar c = true) : l.map toLowerAscii = l := by
  induction l with
  | nil => rfl
  | cons c r ih =>
    rw [List.map_cons, toLowerAscii_eq_self (h c (List.mem_cons_self _ _)),
      ih fun x hx => h x (List.mem_cons_of_mem _ hx)]

theorem replaceWsRuns_eq_self {l : List Char}
    (h : ∀ c ∈ l, isJsSpace c = false) : replaceWsRuns l = l := by
  induction l with
  | nil => rfl
  | cons c r ih =>
    rw [replaceWsRuns_cons_nonspace (h c (List.mem_cons_self _ _)),
      ih fun x hx => h x (List.mem_cons_of_mem _ hx)]

/-- A title made only of slug output characters is its own slug: in
particular hyphen runs, leading hyphens and trailing hyphens survive. -/
theorem slugify_fixpoint {t : String} (h : t.data.all slugOutChar = true) :
    slugify t = t := by
  rw [List.all_eq_true] at h
  unfold slugify
  rw [map_toLowerAscii_eq_self h,
    List.filter_eq_self.mpr fun c hc => slugKeep_of_slugOutChar (h c hc),
    jsTrim_of_no_space fun c hc => not_isJsSpace_of_slugOutChar (h c hc),
    replaceWsRuns_eq_self fun c hc => not_isJsSpace_of_slugOutChar (h c hc)]

/-! ## Booking hook helper lemmas -/

theorem bookingPreSaveStrict_mem (isNew modified : Bool) {events : List Nat}
    {eid : Nat} (hflag : (modified || isNew) = true) (hmem : eid ∈ events) :
    bookingPreSaveStrict isNew modified events eid = (.ok (), [eid]) := by
  unfold bookingPreSaveStrict
  rw [if_pos hflag, if_pos hmem]

theorem bookingPreSaveStrict_notMem (isNew modified : Bool) {events : List Nat}
    {eid : Nat} (hflag : (modified || isNew) = true) (hmem : eid ∉ events) :
    bookingPreSaveStrict isNew modified events eid =
      (.error ("ValidationError: Event with ID " ++ toString eid ++ " does not exist"),
       [eid]) := by
  unfold bookingPreSaveStrict
  rw [if_pos hflag, if_neg hmem]

/-! ## Claim theorems -/

/-- C2: the slug stored on Event save equals the spec's pipeline
(lowercase, remove characters outside `[a-z0-9\s-]`, trim, replace each
whitespace run with one hyphen), the derivation is deterministic, its
result contains only lowercase letters, digits and hyphens, and
`"Hello, World!  2024"` yields `"hello-world-2024"`. -/
theorem slug_derivation_correct :
    (∀ t : String, slugify t = slugSpec t) ∧
    (∀ t1 t2 : String, t1 = t2 → slugify t1 = slugify t2) ∧
    (∀ t : String, (slugify t).data.all slugOutChar = true) ∧
    slugify "Hello, World!  2024" = "hello-world-2024" :=
  ⟨slugify_eq_slugSpec, fun _ _ h => by rw [h], slugify_chars, by decide⟩

theorem slug_derivation_correct_witness :
    slugify "Hello, World!  2024" = slugSpec "Hello, World!  2024" ∧
    slugify "abc" = slugify "abc" :=
  ⟨slug_derivation_correct.1 "Hello, World!  2024",
   slug_derivation_correct.2.1 "abc" "abc" rfl⟩

/-- C10: slug derivation preserves hyphens already present in the title
and collapses only whitespace runs, never hyphen runs: a title made only
of slug output characters is returned verbatim (so hyphen runs survive),
and concrete titles yield consecutive, leading and trailing hyphens —
`"a - b"` gives `"a---b"`. -/
theorem slug_hyphen_preservation :
    (∀ t : String, t.data.all slugOutChar = true → slugify t = t) ∧
    slugify "a - b" = "a---b" ∧
    slugify " - x - " = "--x--" ∧
    slugify "a--b" = "a--b" :=
  ⟨fun _ h => slugify_fixpoint h, by decide, by decide, by decide⟩

theorem slug_hyphen_preservation_witness : slugify "-x--y-" = "-x--y-" :=
  slug_hyphen_preservation.1 "-x--y-" (by decide)

/-- C1 (counterexample): `"14:65"` and `"1:65 PM"` are accepted by the
time pattern (1–2 digit hour, colon, two-digit minute, optional seconds,
optional meridiem) yet the save-time normalization does not rewrite them
to `HH:MM`; it fails with `Time out of range`, so the claim's unconditional
"accepted by the pattern ⟹ rewritten" is false. -/
theorem time_pattern_match_not_sufficient :
    (timeMatch (jsTrim "14:65".data)).isSome = true ∧
    normalizeTime "14:65" = .error "Time out of range: \"14:65\"." ∧
    (timeMatch (jsTrim "1:65 PM".data)).isSome = true ∧
    normalizeTime "1:65 PM" = .error "Time out of range: \"1:65 PM\"." :=
  ⟨rfl, rfl, rfl, rfl⟩

/-- C1 (amended): for every time string accepted by the pattern, a present
meridiem is converted to 24-hour form (PM adds 12 unless the hour is 12;
AM maps hour 12 to 0, otherwise leaves it) and, provided the converted
hour is ≤ 23 and the minute is ≤ 59, the time field is rewritten as
zero-padded `HH:MM` (otherwise the save fails with `Time out of range`);
in particular `"2:30 PM"` normalizes to `"14:30"` and `"12:00 AM"` to
`"00:00"`. -/
theorem time_normalization_range_guarded :
    (∀ (s : String) (h : Nat) (mins : List Char) (mer : Option Bool),
      timeMatch (jsTrim s.data) = some (h, mins, mer) →
      convert24 mer h ≤ 23 → natOfDigits mins ≤ 59 →
      normalizeTime s = .ok (String.mk (pad2 (convert24 mer h) ++ ':' :: mins))) ∧
    (∀ (s : String) (h : Nat) (mins : List Char) (mer : Option Bool),
      timeMatch (jsTrim s.data) = some (h, mins, mer) →
      (23 < convert24 mer h ∨ 59 < natOfDigits mins) →
      normalizeTime s = .error ("Time out of range: \"" ++ s ++ "\".")) ∧
    (∀ h : Nat, convert24 (some true) h = if h = 12 then 12 else h + 12) ∧
    (∀ h : Nat, convert24 (some false) h = if h = 12 then 0 else h) ∧
    (∀ h : Nat, convert24 none h = h) ∧
    normalizeTime "2:30 PM" = .ok "14:30" ∧
    normalizeTime "12:00 AM" = .ok "00:00" := by
  refine ⟨?_, ?_, ?_, ?_, fun _ => rfl, rfl, rfl⟩
  · intro s h mins mer hm hh hmin
    unfold normalizeTime
    rw [hm]
    dsimp only
    rw [if_neg (by omega)]
  · intro s h mins mer hm hout
    unfold normalizeTime
    rw [hm]
    dsimp only
    rw [if_pos (by omega)]
  · intro h
    by_cases h12 : h = 12 <;> simp [convert24, h12]
  · intro h
    by_cases h12 : h = 12 <;> simp [convert24, h12]

theorem time_normalization_range_guarded_witness :
    normalizeTime "2:30 PM" =
      .ok (String.mk (pad2 (convert24 (some true) 2) ++ ':' :: ['3', '0'])) ∧
    normalizeTime "14:65" = .error ("Time out of range: \"" ++ "14:65" ++ "\".") :=
  ⟨time_normalization_range_guarded.1 "2:30 PM" 2 ['3', '0'] (some true) rfl
     (by decide) (by decide),
   time_normalization_range_guarded.2.1 "14:65" 14 ['6', '5'] none rfl
     (by decide)⟩

/-- C3: date normalization fails with `Invalid date value` exactly when
the builtin cannot parse the string as a calendar date, and otherwise
rewrites the field to the UTC calendar form `YYYY-MM-DD`; under a UTC
process timezone `"March 5, 2025"` becomes `"2025-03-05"` and
`"not-a-date"` fails. -/
theorem date_normalization_correct :
    (∀ (tz : Int) (s : String),
      (∃ e, normalizeDate tz s = .error e) ↔ jsParseCivilDate tz s = none) ∧
    (∀ (tz : Int) (s : String) (c : CivilDate),
      jsParseCivilDate tz s = some c → normalizeDate tz s = .ok (formatISODate c)) ∧
    normalizeDate 0 "March 5, 2025" = .ok "2025-03-05" ∧
    normalizeDate 0 "not-a-date" = .error "Invalid date value: \"not-a-date\"" := by
  refine ⟨?_, ?_, rfl, rfl⟩
  · intro tz s
    unfold normalizeDate
    cases hp : jsParseCivilDate tz s <;> simp
  · intro tz s c h
    unfold normalizeDate
    rw [h]

theorem date_normalization_correct_witness :
    normalizeDate 0 "March 5, 2025" = .ok (formatISODate ⟨2025, 3, 5⟩) :=
  date_normalization_correct.2.1 0 "March 5, 2025" ⟨2025, 3, 5⟩ rfl

/-- C9: date and time normalization are idempotent on their own
successful outputs (for dates, whatever process timezone either run
uses), and hence re-saving a successfully saved Event reproduces the
document unchanged — in particular its date and time fields. -/
theorem normalization_idempotent :
    (∀ s t : String, normalizeTime s = .ok t → normalizeTime t = .ok t) ∧
    (∀ (tz tz' : Int) (s d : String),
      normalizeDate tz s = .ok d → normalizeDate tz' d = .ok d) ∧
    (∀ (tz tz' : Int) (doc doc' : EventDoc) (isNew titleModified : Bool),
      eventPreSave tz doc isNew titleModified = .ok doc' →
      eventPreSave tz' doc' false false = .ok doc') := by
  refine ⟨fun s t h => normalizeTime_idem h,
    fun tz tz' s d h => normalizeDate_idem h, ?_⟩
  intro tz tz' doc doc' isNew titleModified hok
  unfold eventPreSave at hok ⊢
  cases hdate : normalizeDate tz doc.date with
  | error e => rw [hdate] at hok; cases hok
  | ok date' =>
    rw [hdate] at hok
    cases htime : normalizeTime doc.time with
    | error e => rw [htime] at hok; cases hok
    | ok time' =>
      rw [htime] at hok
      dsimp only at hok
      cases hok
      rw [normalizeDate_idem hdate, normalizeTime_idem htime]
      simp

theorem normalization_idempotent_witness :
    normalizeTime "14:30" = .ok "14:30" ∧
    normalizeDate 3 "2025-03-05" = .ok "2025-03-05" ∧
    eventPreSave 0 sampleEventSaved false false = .ok sampleEventSaved :=
  ⟨normalization_idempotent.1 "2:30 PM" "14:30" rfl,
   normalization_idempotent.2.1 0 3 "March 5, 2025" "2025-03-05" rfl,
   normalization_idempotent.2.2 0 0 sampleEventRaw sampleEventSaved true false rfl⟩

/-- C8: the save pipeline regenerates the slug only when the Event is new
or its title changed (a re-save without a title change keeps the slug
verbatim), and touches no field other than slug, date and time
(timestamps are managed outside the hook). -/
theorem event_save_frame :
    ∀ (tz : Int) (doc : EventDoc) (isNew titleModified : Bool) (doc' : EventDoc),
      eventPreSave tz doc isNew titleModified = .ok doc' →
      doc'.title = doc.title ∧ doc'.description = doc.description ∧
      doc'.overview = doc.overview ∧ doc'.image = doc.image ∧
      doc'.venue = doc.venue ∧ doc'.location = doc.location ∧
      doc'.mode = doc.mode ∧ doc'.audience = doc.audience ∧
      doc'.agenda = doc.agenda ∧ doc'.organizer = doc.organizer ∧
      doc'.tags = doc.tags ∧
      (isNew = false → titleModified = false → doc'.slug = doc.slug) ∧
      ((isNew || titleModified) = true → doc'.slug = slugify doc.title) := by
  intro tz doc isNew titleModified doc' hok
  unfold eventPreSave at hok
  cases hdate : normalizeDate tz doc.date with
  | error e => rw [hdate] at hok; cases hok
  | ok date' =>
    rw [hdate] at hok
    cases htime : normalizeTime doc.time with
    | error e => rw [htime] at hok; cases hok
    | ok time' =>
      rw [htime] at hok
      dsimp only at hok
      cases hok
      refine ⟨rfl, rfl, rfl, rfl, rfl, rfl, rfl, rfl, rfl, rfl, rfl, ?_, ?_⟩
      · intro h1 h2
        rw [h1, h2]
        rfl
      · intro hflag
        simp only
        rw [if_pos hflag]

theorem event_save_frame_witness :
    sampleEventSaved.title = sampleEventRaw.title ∧
    sampleEventSaved.description = sampleEventRaw.description ∧
    sampleEventSaved.overview = sampleEventRaw.overview ∧
    sampleEventSaved.image = sampleEventRaw.image ∧
    sampleEventSaved.venue = sampleEventRaw.venue ∧
    sampleEventSaved.location = sampleEventRaw.location ∧
    sampleEventSaved.mode = sampleEventRaw.mode ∧
    sampleEventSaved.audience = sampleEventRaw.audience ∧
    sampleEventSaved.agenda = sampleEventRaw.agenda ∧
    sampleEventSaved.organizer = sampleEventRaw.organizer ∧
    sampleEventSaved.tags = sampleEventRaw.tags ∧
    (true = false → false = false → sampleEventSaved.slug = sampleEventRaw.slug) ∧
    ((true || false) = true → sampleEventSaved.slug = slugify sampleEventRaw.title) :=
  event_save_frame 0 sampleEventRaw true false sampleEventSaved rfl

/-- C4: a Booking save whose `eventId` references no stored Event fails
with an error and no Booking is persisted (a successful result is the
only way the store gains the booking), regardless of the email's
validity — under the `booking.model.ts` variant, whose existence hook is
unconditional. -/
theorem booking_missing_event_rejected :
    ∀ (st : BookingStore) (eid : Nat) (email : String),
      eid ∉ st.events → ∃ e, saveBookingBasic st eid email = .error e := by
  intro st eid email hmem
  unfold saveBookingBasic
  by_cases hem : emailOkBasic (normalizeEmail email) = false
  · rw [if_pos hem]
    exact ⟨_, rfl⟩
  · rw [if_neg hem, if_neg hmem]
    exact ⟨_, rfl⟩

theorem booking_missing_event_rejected_witness :
    (∃ e, saveBookingBasic ⟨[1], []⟩ 5 "a@b.cd" = .error e) ∧
    (∃ e, saveBookingBasic ⟨[1], []⟩ 5 "not an email" = .error e) :=
  ⟨booking_missing_event_rejected ⟨[1], []⟩ 5 "a@b.cd" (by decide),
   booking_missing_event_rejected ⟨[1], []⟩ 5 "not an email" (by decide)⟩

/-- C5: when `eventId` is neither newly set nor modified, the
referenced-event pre-save hook performs no lookup against the Event
collection (its lookup trace is empty) and passes. -/
theorem booking_existence_check_skipped :
    ∀ (events : List Nat) (eid : Nat),
      (bookingPreSaveStrict false false events eid).2 = [] ∧
      (bookingPreSaveStrict false false events eid).1 = .ok () :=
  fun _ _ => ⟨rfl, rfl⟩

/-- C6: at most one Booking exists per `(eventId, email)` pair under the
spec-adopted variant: re-creating a Booking with the same pair fails with
the `ConstraintViolation` of the unique compound index, and distinctness
of the stored pairs is preserved by every save. -/
theorem booking_unique_per_event_email :
    (∀ (st st' : BookingStore) (eid : Nat) (em : String),
      saveBookingStrict st eid em true false = .ok st' →
      saveBookingStrict st' eid em true false =
        .error "ConstraintViolation: duplicate (eventId, email)") ∧
    (∀ (st st' : BookingStore) (eid : Nat) (em : String) (isNew modified : Bool),
      st.bookings.Nodup → saveBookingStrict st eid em isNew modified = .ok st' →
      st'.bookings.Nodup) := by
  constructor
  · intro st st' eid em hok
    unfold saveBookingStrict at hok ⊢
    by_cases hem : emailOkStrict (normalizeEmail em) = false
    · rw [if_pos hem] at hok; cases hok
    · rw [if_neg hem] at hok
      by_cases hev : eid ∈ st.events
      · rw [bookingPreSaveStrict_mem true false rfl hev] at hok
        dsimp only at hok
        by_cases hdup : (eid, normalizeEmail em) ∈ st.bookings
        · rw [if_pos hdup] at hok; cases hok
        · rw [if_neg hdup] at hok
          cases hok
          rw [if_neg hem, bookingPreSaveStrict_mem true false rfl hev]
          dsimp only
          rw [if_pos (List.mem_cons_self _ _)]
      · rw [bookingPreSaveStrict_notMem true false rfl hev] at hok
        dsimp only at hok
        cases hok
  · intro st st' eid em isNew modified hnd hok
    unfold saveBookingStrict at hok
    by_cases hem : emailOkStrict (normalizeEmail em) = false
    · rw [if_pos hem] at hok; cases hok
    · rw [if_neg hem] at hok
      cases hhook : (bookingPreSaveStrict isNew modified st.events eid).1 with
      | error e => rw [hhook] at hok; cases hok
      | ok u =>
        rw [hhook] at hok
        dsimp only at hok
        by_cases hdup : (eid, normalizeEmail em) ∈ st.bookings
        · rw [if_pos hdup] at hok; cases hok
        · rw [if_neg hdup] at hok
          cases hok
          exact List.nodup_cons.mpr ⟨hdup, hnd⟩

theorem booking_unique_per_event_email_witness :
    saveBookingStrict ⟨[1], [(1, "a@b.cd")]⟩ 1 "a@b.cd" true false =
      .error "ConstraintViolation: duplicate (eventId, email)" ∧
    (⟨[1], [(1, "a@b.cd")]⟩ : BookingStore).bookings.Nodup :=
  ⟨booking_unique_per_event_email.1 ⟨[1], []⟩ ⟨[1], [(1, "a@b.cd")]⟩ 1 "a@b.cd" rfl,
   booking_unique_per_event_email.2 ⟨[1], []⟩ ⟨[1], [(1, "a@b.cd")]⟩ 1 "a@b.cd"
     true false (by simp) rfl⟩

/-- C7 (divergence witness): after a first `connectToDatabase()` call whose
underlying attempt rejects, the cached in-flight attempt is *not*
cleared — the state keeps `promise = some 0` — so a second call re-awaits
the same failed attempt and fails again without starting the fresh
attempt 1, which would have succeeded.  The claim's cleared-on-failure
retry behavior does not hold on this code. -/
theorem connect_failure_poisons_cache :
    connectToDatabase failThenOk ⟨none, none, 0⟩ =
      (.error "ConnectionError", ⟨none, some 0, 1⟩) ∧
    connectToDatabase failThenOk ⟨none, some 0, 1⟩ =
      (.error "ConnectionError", ⟨none, some 0, 1⟩) ∧
    failThenOk 1 = some 7 :=
  ⟨rfl, rfl, rfl⟩

end DevEvents

